import Mathlib

/-!
Shallow embedding of the polkaswap ERC20 pallet (src/lib.rs).

The pallet keeps five storage tables: TotalSupply, AssetInfos, Balances,
NextAssetId and Allowances, and exposes the inner operations inner_issue,
inner_approve, inner_transfer, inner_transfer_from, inner_mint and
inner_burn.  TokenBalance is a bounded unsigned machine-integer type
(AtLeast32BitUnsigned); we model its values as natural numbers together
with an explicit maximum MAX, so that saturating_add clamps at MAX
exactly as the Rust saturating arithmetic does.  AssetId and AccountId
are modelled as natural numbers.  Storage maps with a Default value query
are modelled as total functions defaulting to 0, the AssetInfos option
map as a function into Option AssetInfo.
-/

namespace Erc20

/-- AssetInfo of the pallet: fixed-size name and symbol byte arrays plus a
decimals byte.  The contents are opaque to every operation. -/
structure AssetInfo where
  name : List Nat
  symbol : List Nat
  decimals : Nat
deriving DecidableEq

/-- The error enum declared by decl_error: BalanceLow, BalanceZero (declared
but unused), AllowanceLow, AmountZero, AssetNotExists. -/
inductive Error where
  | BalanceLow
  | BalanceZero
  | AllowanceLow
  | AmountZero
  | AssetNotExists
deriving DecidableEq

/- AssetId, AccountId and TokenBalance are all modelled as Nat (the omega
tactic requires the literal type Nat, so no abbreviations are introduced);
TokenBalance values are read modulo the explicit bound MAX carried by the
saturating arithmetic. -/

/-- The five storage tables declared by decl_storage. -/
structure State where
  totalSupply : Nat → Nat
  assetInfos : Nat → Option AssetInfo
  balances : Nat × Nat → Nat
  nextAssetId : Nat
  allowances : Nat × Nat × Nat → Nat

/-- Point update of a storage map (insert / mutate of one key). -/
def upd {α β : Type} [DecidableEq α] (f : α → β) (k : α) (v : β) : α → β :=
  fun x => if x = k then v else f x

/-- Rust saturating_add on an unsigned type with maximum MAX. -/
def saturating_add (MAX x y : Nat) : Nat := min (x + y) MAX

/-- Rust saturating_sub on an unsigned type (clamps at zero, which is
exactly Nat subtraction). -/
def saturating_sub (x y : Nat) : Nat := x - y

/-- Rust checked_sub on an unsigned type: none on underflow. -/
def checked_sub (x y : Nat) : Option Nat := if y ≤ x then some (x - y) else none

/-- The freshly initialised storage: every map at its default. -/
def emptyState : State where
  totalSupply := fun _ => 0
  assetInfos := fun _ => none
  balances := fun _ => 0
  nextAssetId := 0
  allowances := fun _ => 0

/-- inner_issue: read NextAssetId, post-increment it, insert the initial
supply as the issuer balance and the total supply, record the asset info,
and return the allocated id.  It has no failure path. -/
def inner_issue (s : State) (owner : Nat) (initial_supply : Nat)
    (info : AssetInfo) : State × Nat :=
  let id := s.nextAssetId
  let s1 := { s with nextAssetId := s.nextAssetId + 1 }
  let s2 := { s1 with balances := upd s1.balances (id, owner) initial_supply }
  let s3 := { s2 with totalSupply := upd s2.totalSupply id initial_supply }
  let s4 := { s3 with assetInfos := upd s3.assetInfos id (some info) }
  (s4, id)

/-- inner_transfer: ensure the amount is nonzero (AmountZero) and the owner
balance sufficient (BalanceLow), then write the debited owner balance and
saturating-add the amount onto the target balance, in that order. -/
def inner_transfer (MAX : Nat) (s : State) (id : Nat) (owner target : Nat)
    (amount : Nat) : Except Error State :=
  let owner_balance := s.balances (id, owner)
  if amount = 0 then Except.error Error.AmountZero
  else if owner_balance < amount then Except.error Error.BalanceLow
  else
    let new_balance := saturating_sub owner_balance amount
    let s1 := { s with balances := upd s.balances (id, owner) new_balance }
    let credited := saturating_add MAX (s1.balances (id, target)) amount
    let s2 := { s1 with balances := upd s1.balances (id, target) credited }
    Except.ok s2

/-- inner_transfer_from: checked-subtract the amount from the allowance
(AllowanceLow on underflow), then run inner_transfer, and only if it
succeeds write the decremented allowance back. -/
def inner_transfer_from (MAX : Nat) (s : State) (id : Nat)
    (owner spender target : Nat) (amount : Nat) : Except Error State :=
  let allowance := s.allowances (id, owner, spender)
  match checked_sub allowance amount with
  | none => Except.error Error.AllowanceLow
  | some new_balance =>
    match inner_transfer MAX s id owner target amount with
    | Except.error e => Except.error e
    | Except.ok s1 =>
      Except.ok { s1 with allowances := upd s1.allowances (id, owner, spender) new_balance }

/-- inner_approve: unconditionally overwrite the allowance entry. -/
def inner_approve (s : State) (id : Nat) (owner spender : Nat)
    (amount : Nat) : Except Error State :=
  Except.ok { s with allowances := upd s.allowances (id, owner, spender) amount }

/-- inner_mint: ensure the asset exists (AssetNotExists), then saturating-add
the amount onto the account balance and the total supply. -/
def inner_mint (MAX : Nat) (s : State) (id : Nat) (owner : Nat)
    (amount : Nat) : Except Error State :=
  match s.assetInfos id with
  | none => Except.error Error.AssetNotExists
  | some _ =>
    let new_balance := saturating_add MAX (s.balances (id, owner)) amount
    let s1 := { s with balances := upd s.balances (id, owner) new_balance }
    let new_supply := saturating_add MAX (s1.totalSupply id) amount
    let s2 := { s1 with totalSupply := upd s1.totalSupply id new_supply }
    Except.ok s2

/-- inner_burn: ensure the asset exists (AssetNotExists), checked-subtract
the amount from the account balance (BalanceLow on underflow), then write
the debited balance and saturating-subtract the amount from the supply. -/
def inner_burn (s : State) (id : Nat) (owner : Nat)
    (amount : Nat) : Except Error State :=
  match s.assetInfos id with
  | none => Except.error Error.AssetNotExists
  | some _ =>
    match checked_sub (s.balances (id, owner)) amount with
    | none => Except.error Error.BalanceLow
    | some new_balance =>
      let s1 := { s with balances := upd s.balances (id, owner) new_balance }
      let new_supply := saturating_sub (s1.totalSupply id) amount
      let s2 := { s1 with totalSupply := upd s1.totalSupply id new_supply }
      Except.ok s2

/-- One dispatchable call of the pallet, with the origin already resolved
to account ids by ensure_signed / lookup. -/
inductive Call where
  | issue (owner : Nat) (total : Nat) (info : AssetInfo)
  | approve (id : Nat) (owner spender : Nat) (amount : Nat)
  | transfer (id : Nat) (owner target : Nat) (amount : Nat)
  | transferFrom (id : Nat) (owner spender target : Nat) (amount : Nat)
  | mint (id : Nat) (owner : Nat) (amount : Nat)
  | burn (id : Nat) (owner : Nat) (amount : Nat)

/-- Commit semantics of one call: a failing inner operation performs no
write at all (every ensure/checked_sub happens before the first write in
the source), so the pre-call state is kept verbatim alongside the error. -/
def applyExcept (s : State) : Except Error State → State × Option Error
  | Except.error e => (s, some e)
  | Except.ok s1 => (s1, none)

/-- Execute one call against the storage. -/
def runCall (MAX : Nat) (s : State) : Call → State × Option Error
  | Call.issue owner total info => ((inner_issue s owner total info).1, none)
  | Call.approve id owner spender amount =>
      applyExcept s (inner_approve s id owner spender amount)
  | Call.transfer id owner target amount =>
      applyExcept s (inner_transfer MAX s id owner target amount)
  | Call.transferFrom id owner spender target amount =>
      applyExcept s (inner_transfer_from MAX s id owner spender target amount)
  | Call.mint id owner amount => applyExcept s (inner_mint MAX s id owner amount)
  | Call.burn id owner amount => applyExcept s (inner_burn s id owner amount)

/-- Execute a list of calls in order, starting from a given state. -/
def runTrace (MAX : Nat) (s : State) : List Call → State
  | [] => s
  | c :: cs => runTrace MAX (runCall MAX s c).1 cs

/-! ### Basic lemmas about map updates and the success states -/

theorem upd_same {α β : Type} [DecidableEq α] (f : α → β) (k : α) (v : β) :
    upd f k v k = v := by
  simp [upd]

theorem upd_ne {α β : Type} [DecidableEq α] (f : α → β) (k : α) (v : β) (x : α)
    (h : x ≠ k) : upd f k v x = f x := by
  simp [upd, h]

/-- The storage state written by a successful inner_transfer: the owner
balance debited, then the target balance saturating-credited (reading the
balance map after the debit). -/
def transferResult (MAX : Nat) (s : State) (id : Nat) (owner target : Nat)
    (amount : Nat) : State :=
  let debited := saturating_sub (s.balances (id, owner)) amount
  let s1 := { s with balances := upd s.balances (id, owner) debited }
  let credited := saturating_add MAX (s1.balances (id, target)) amount
  { s1 with balances := upd s1.balances (id, target) credited }

theorem inner_transfer_eq (MAX : Nat) (s : State) (id : Nat) (owner target : Nat)
    (amount : Nat) :
    inner_transfer MAX s id owner target amount =
      if amount = 0 then Except.error Error.AmountZero
      else if s.balances (id, owner) < amount then Except.error Error.BalanceLow
      else Except.ok (transferResult MAX s id owner target amount) := rfl

/-- The storage state written by a successful inner_mint. -/
def mintResult (MAX : Nat) (s : State) (id : Nat) (owner : Nat)
    (amount : Nat) : State :=
  let credited := saturating_add MAX (s.balances (id, owner)) amount
  let s1 := { s with balances := upd s.balances (id, owner) credited }
  let new_supply := saturating_add MAX (s1.totalSupply id) amount
  { s1 with totalSupply := upd s1.totalSupply id new_supply }

theorem inner_mint_eq (MAX : Nat) (s : State) (id : Nat) (owner : Nat)
    (amount : Nat) :
    inner_mint MAX s id owner amount =
      match s.assetInfos id with
      | none => Except.error Error.AssetNotExists
      | some _ => Except.ok (mintResult MAX s id owner amount) := by
  cases h : s.assetInfos id <;> simp [inner_mint, h, mintResult]

/-- The storage state written by a successful inner_burn. -/
def burnResult (s : State) (id : Nat) (owner : Nat)
    (amount : Nat) : State :=
  let debited := saturating_sub (s.balances (id, owner)) amount
  let s1 := { s with balances := upd s.balances (id, owner) debited }
  let new_supply := saturating_sub (s1.totalSupply id) amount
  { s1 with totalSupply := upd s1.totalSupply id new_supply }

theorem inner_burn_eq (s : State) (id : Nat) (owner : Nat)
    (amount : Nat) :
    inner_burn s id owner amount =
      match s.assetInfos id with
      | none => Except.error Error.AssetNotExists
      | some _ =>
        if amount ≤ s.balances (id, owner) then Except.ok (burnResult s id owner amount)
        else Except.error Error.BalanceLow := by
  cases h : s.assetInfos id <;>
    by_cases hle : amount ≤ s.balances (id, owner) <;>
      simp [inner_burn, h, checked_sub, hle, burnResult, saturating_sub]

theorem inner_transfer_from_eq (MAX : Nat) (s : State) (id : Nat)
    (owner spender target : Nat) (amount : Nat) :
    inner_transfer_from MAX s id owner spender target amount =
      if amount ≤ s.allowances (id, owner, spender) then
        match inner_transfer MAX s id owner target amount with
        | Except.error e => Except.error e
        | Except.ok s1 =>
          Except.ok { s1 with allowances := upd s1.allowances (id, owner, spender) (s.allowances (id, owner, spender) - amount) }
      else Except.error Error.AllowanceLow := by
  by_cases h : amount ≤ s.allowances (id, owner, spender) <;>
    simp [inner_transfer_from, checked_sub, h]

theorem inner_transfer_ok (MAX : Nat) (s : State) (id : Nat) (owner target : Nat)
    (amount : Nat) (s1 : State)
    (h : inner_transfer MAX s id owner target amount = Except.ok s1) :
    s1 = transferResult MAX s id owner target amount
      ∧ amount ≠ 0 ∧ amount ≤ s.balances (id, owner) := by
  rw [inner_transfer_eq] at h
  by_cases h0 : amount = 0
  · simp [h0] at h
  · by_cases h1 : s.balances (id, owner) < amount
    · simp [h0, h1] at h
    · simp only [if_neg h0, if_neg h1, Except.ok.injEq] at h
      exact ⟨h.symm, h0, Nat.not_lt.mp h1⟩

theorem inner_mint_ok (MAX : Nat) (s : State) (id : Nat) (owner : Nat)
    (amount : Nat) (s1 : State)
    (h : inner_mint MAX s id owner amount = Except.ok s1) :
    s1 = mintResult MAX s id owner amount ∧ (s.assetInfos id).isSome := by
  rw [inner_mint_eq] at h
  rcases hi : s.assetInfos id with _ | info <;> rw [hi] at h
  · simp at h
  · simp only [Except.ok.injEq] at h
    exact ⟨h.symm, rfl⟩

theorem inner_burn_ok (s : State) (id : Nat) (owner : Nat)
    (amount : Nat) (s1 : State)
    (h : inner_burn s id owner amount = Except.ok s1) :
    s1 = burnResult s id owner amount ∧ (s.assetInfos id).isSome
      ∧ amount ≤ s.balances (id, owner) := by
  rw [inner_burn_eq] at h
  rcases hi : s.assetInfos id with _ | info <;> rw [hi] at h
  · simp at h
  · by_cases hle : amount ≤ s.balances (id, owner)
    · simp only [if_pos hle, Except.ok.injEq] at h
      exact ⟨h.symm, rfl, hle⟩
    · simp [hle] at h

theorem inner_transfer_from_ok (MAX : Nat) (s : State) (id : Nat)
    (owner spender target : Nat) (amount : Nat) (s1 : State)
    (h : inner_transfer_from MAX s id owner spender target amount = Except.ok s1) :
    amount ≤ s.allowances (id, owner, spender)
      ∧ ∃ st, inner_transfer MAX s id owner target amount = Except.ok st
        ∧ s1 = { st with allowances := upd st.allowances (id, owner, spender) (s.allowances (id, owner, spender) - amount) } := by
  rw [inner_transfer_from_eq] at h
  by_cases ha : amount ≤ s.allowances (id, owner, spender)
  · rw [if_pos ha] at h
    rcases ht : inner_transfer MAX s id owner target amount with e | st <;> rw [ht] at h
    · simp at h
    · simp only [Except.ok.injEq] at h
      exact ⟨ha, st, rfl, h.symm⟩
  · simp [ha] at h

theorem transferResult_frame (MAX : Nat) (s : State) (id : Nat)
    (owner target : Nat) (amount : Nat) :
    (transferResult MAX s id owner target amount).totalSupply = s.totalSupply
      ∧ (transferResult MAX s id owner target amount).assetInfos = s.assetInfos
      ∧ (transferResult MAX s id owner target amount).nextAssetId = s.nextAssetId
      ∧ (transferResult MAX s id owner target amount).allowances = s.allowances :=
  ⟨rfl, rfl, rfl, rfl⟩

theorem applyExcept_error (s : State) (r : Except Error State) (e : Error)
    (h : (applyExcept s r).2 = some e) : (applyExcept s r).1 = s := by
  cases r <;> simp [applyExcept] at h ⊢

theorem nextAssetId_mono (MAX : Nat) (s : State) (c : Call) :
    s.nextAssetId ≤ (runCall MAX s c).1.nextAssetId := by
  cases c with
  | issue o t i => exact Nat.le_succ s.nextAssetId
  | approve id o sp a => exact Nat.le_refl _
  | transfer id o t a =>
    rcases h : inner_transfer MAX s id o t a with e | s1
    · simp [runCall, h, applyExcept]
    · have := (inner_transfer_ok MAX s id o t a s1 h).1
      simp [runCall, h, applyExcept, this, transferResult]
  | transferFrom id o sp t a =>
    rcases h : inner_transfer_from MAX s id o sp t a with e | s1
    · simp [runCall, h, applyExcept]
    · obtain ⟨_, st, hst, hs1⟩ := inner_transfer_from_ok MAX s id o sp t a s1 h
      have := (inner_transfer_ok MAX s id o t a st hst).1
      simp [runCall, h, applyExcept, hs1, this, transferResult]
  | mint id o a =>
    rcases h : inner_mint MAX s id o a with e | s1
    · simp [runCall, h, applyExcept]
    · have := (inner_mint_ok MAX s id o a s1 h).1
      simp [runCall, h, applyExcept, this, mintResult]
  | burn id o a =>
    rcases h : inner_burn s id o a with e | s1
    · simp [runCall, h, applyExcept]
    · have := (inner_burn_ok s id o a s1 h).1
      simp [runCall, h, applyExcept, this, burnResult]

/-- A concrete asset info used in witness states. -/
def infoA : AssetInfo where
  name := []
  symbol := []
  decimals := 0

/-- A concrete state: asset 0 issued to account 0 with supply 10. -/
def sIssued : State := (inner_issue emptyState 0 10 infoA).1

/-- A concrete state: sIssued with allowance 5 from owner 0 to spender 1. -/
def sIssuedApproved : State :=
  { sIssued with allowances := upd sIssued.allowances (0, 0, 1) 5 }

/-- C3: inner_transfer fails with AmountZero when the amount is zero, fails
with BalanceLow when the owner balance is below the amount, and on success
with distinct owner and target it sets the owner balance to the old owner
balance minus the amount and the target balance to the saturating sum of the
old target balance and the amount. -/
theorem c3_transfer_spec (MAX : Nat) (s : State) (id : Nat) (owner target : Nat)
    (amount : Nat) :
    (amount = 0 → inner_transfer MAX s id owner target amount = Except.error Error.AmountZero)
    ∧ (s.balances (id, owner) < amount →
        inner_transfer MAX s id owner target amount = Except.error Error.BalanceLow)
    ∧ (amount ≠ 0 → amount ≤ s.balances (id, owner) → owner ≠ target →
        ∃ s1, inner_transfer MAX s id owner target amount = Except.ok s1
          ∧ s1.balances (id, owner) = s.balances (id, owner) - amount
          ∧ s1.balances (id, target) = saturating_add MAX (s.balances (id, target)) amount) := by
  refine ⟨fun h => ?_, fun h => ?_, fun h0 h1 hot => ?_⟩
  · rw [inner_transfer_eq, if_pos h]
  · have h0 : ¬ amount = 0 := by omega
    rw [inner_transfer_eq, if_neg h0, if_pos h]
  · have h2 : ¬ s.balances (id, owner) < amount := Nat.not_lt.mpr h1
    refine ⟨transferResult MAX s id owner target amount, ?_, ?_, ?_⟩
    · rw [inner_transfer_eq, if_neg h0, if_neg h2]
    · simp [transferResult, upd, hot, Ne.symm hot, saturating_sub]
    · simp [transferResult, upd, hot, Ne.symm hot]

theorem c3_transfer_spec_witness :
    ∃ s1, inner_transfer 100 sIssued 0 0 1 4 = Except.ok s1
      ∧ s1.balances (0, 0) = sIssued.balances (0, 0) - 4
      ∧ s1.balances (0, 1) = saturating_add 100 (sIssued.balances (0, 1)) 4 :=
  (c3_transfer_spec 100 sIssued 0 0 1 4).2.2 (by decide) (by decide) (by decide)

/-- C5 (amended): inner_burn fails with AssetNotExists when the asset info
is absent, fails with BalanceLow when the account balance is below the
amount, and on success decreases the account balance by exactly the amount
and saturating-subtracts the amount from the total supply: the decrease is
exact whenever the amount is at most the pre-call supply, but a supply that
an earlier saturated mint left below the balance clamps at zero instead. -/
theorem c5_burn_spec (s : State) (id : Nat) (account : Nat)
    (amount : Nat) :
    (s.assetInfos id = none → inner_burn s id account amount = Except.error Error.AssetNotExists)
    ∧ (∀ info, s.assetInfos id = some info → s.balances (id, account) < amount →
        inner_burn s id account amount = Except.error Error.BalanceLow)
    ∧ (∀ s1, inner_burn s id account amount = Except.ok s1 →
        amount ≤ s.balances (id, account)
          ∧ s1.balances (id, account) + amount = s.balances (id, account)
          ∧ s1.totalSupply id = saturating_sub (s.totalSupply id) amount
          ∧ (amount ≤ s.totalSupply id → s1.totalSupply id + amount = s.totalSupply id)) := by
  refine ⟨fun h => ?_, fun info h hlt => ?_, fun s1 hok => ?_⟩
  · rw [inner_burn_eq, h]
  · rw [inner_burn_eq, h, if_neg (by omega)]
  · obtain ⟨hs1, _, hle⟩ := inner_burn_ok s id account amount s1 hok
    subst hs1
    refine ⟨hle, ?_, ?_, ?_⟩
    · simp [burnResult, upd_same, saturating_sub]
      omega
    · show upd s.totalSupply id (saturating_sub (s.totalSupply id) amount) id = _
      rw [upd_same]
    · intro hsup
      show upd s.totalSupply id (saturating_sub (s.totalSupply id) amount) id + amount = _
      rw [upd_same]
      simp only [saturating_sub]
      omega

theorem c5_burn_spec_witness :
    4 ≤ sIssued.balances (0, 0)
      ∧ (burnResult sIssued 0 0 4).balances (0, 0) + 4 = sIssued.balances (0, 0)
      ∧ (burnResult sIssued 0 0 4).totalSupply 0 = saturating_sub (sIssued.totalSupply 0) 4
      ∧ (4 ≤ sIssued.totalSupply 0 →
          (burnResult sIssued 0 0 4).totalSupply 0 + 4 = sIssued.totalSupply 0) :=
  (c5_burn_spec sIssued 0 0 4).2.2 (burnResult sIssued 0 0 4) rfl

/-- A trace reaching a state where an account balance exceeds TotalSupply:
issue the full 32-bit range to account 0, transfer all of it to account 1,
mint the full range to account 0 again (the supply clamps at the maximum),
then burn the full range from account 0 (the supply saturates down to zero
while account 1 still holds the full range). -/
def cexBurnTrace : List Call :=
  [Call.issue 0 4294967295 infoA, Call.transfer 0 0 1 4294967295,
   Call.mint 0 0 4294967295, Call.burn 0 0 4294967295]

/-- C5 counterexample: in the reachable state after cexBurnTrace account 1
holds 4294967295 while TotalSupply of asset 0 is already 0; burning 3 from
account 1 succeeds and debits the balance by 3, but leaves TotalSupply at
0: the supply is not decreased by exactly the burnt amount. -/
theorem c5_counterexample :
    ∃ s1, inner_burn (runTrace 4294967295 emptyState cexBurnTrace) 0 1 3 = Except.ok s1
      ∧ s1.balances (0, 1) + 3 = (runTrace 4294967295 emptyState cexBurnTrace).balances (0, 1)
      ∧ (runTrace 4294967295 emptyState cexBurnTrace).totalSupply 0 = 0
      ∧ s1.totalSupply 0 + 3 ≠ (runTrace 4294967295 emptyState cexBurnTrace).totalSupply 0 := by
  refine ⟨burnResult (runTrace 4294967295 emptyState cexBurnTrace) 0 1 3, rfl, ?_, ?_, ?_⟩
  · decide
  · decide
  · decide

/-- C6: inner_issue always succeeds, returns the current NextAssetId value
and post-increments that counter by one, records the asset info, and sets
the total supply and the issuer balance to the initial supply (also when it
is zero); the counter starts at zero on empty storage and no call ever
decreases it, so allocated ids are never reused. -/
theorem c6_issue_spec (MAX : Nat) (s : State) (owner : Nat)
    (total : Nat) (info : AssetInfo) :
    (inner_issue s owner total info).2 = s.nextAssetId
    ∧ (inner_issue s owner total info).1.nextAssetId = s.nextAssetId + 1
    ∧ (inner_issue s owner total info).1.assetInfos s.nextAssetId = some info
    ∧ (inner_issue s owner total info).1.totalSupply s.nextAssetId = total
    ∧ (inner_issue s owner total info).1.balances (s.nextAssetId, owner) = total
    ∧ emptyState.nextAssetId = 0
    ∧ (∀ c : Call, s.nextAssetId ≤ (runCall MAX s c).1.nextAssetId) := by
  refine ⟨rfl, rfl, upd_same _ _ _, ?_, ?_, rfl, fun c => nextAssetId_mono MAX s c⟩
  · simp [inner_issue, upd_same]
  · simp [inner_issue, upd_same]

/-- C7: inner_approve always succeeds and overwrites the allowance entry
with the given amount regardless of its previous value; approving X and
then Y leaves the allowance at Y, not X plus Y. -/
theorem c7_approve_overwrites (s : State) (id : Nat) (owner spender : Nat)
    (X Y : Nat) :
    (∃ s1, inner_approve s id owner spender X = Except.ok s1
       ∧ s1.allowances (id, owner, spender) = X)
    ∧ (∀ s1 s2, inner_approve s id owner spender X = Except.ok s1 →
        inner_approve s1 id owner spender Y = Except.ok s2 →
        s2.allowances (id, owner, spender) = Y) := by
  constructor
  · exact ⟨_, rfl, upd_same _ _ _⟩
  · intro s1 s2 h1 h2
    simp only [inner_approve, Except.ok.injEq] at h1 h2
    subst h1
    subst h2
    exact upd_same _ _ _

/-- The state after approving allowance 3 for (0, 0, 1) on empty storage. -/
def sApproved3 : State := { emptyState with allowances := upd emptyState.allowances (0, 0, 1) 3 }

/-- The state after re-approving allowance 7 for (0, 0, 1) on sApproved3. -/
def sApproved7 : State := { sApproved3 with allowances := upd sApproved3.allowances (0, 0, 1) 7 }

theorem c7_approve_overwrites_witness : sApproved7.allowances (0, 0, 1) = 7 :=
  (c7_approve_overwrites emptyState 0 0 1 3 7).2 sApproved3 sApproved7 rfl rfl

/-- C2: inner_transfer_from fails with AllowanceLow when the allowance is
below the amount; when the allowance suffices it performs exactly the state
change of the direct inner_transfer and, only if that transfer succeeds,
additionally decreases the allowance entry by exactly the amount; when it
fails for any reason no table changes. -/
theorem c2_transfer_from_spec (MAX : Nat) (s : State) (id : Nat)
    (owner spender target : Nat) (amount : Nat) :
    (s.allowances (id, owner, spender) < amount →
      inner_transfer_from MAX s id owner spender target amount = Except.error Error.AllowanceLow)
    ∧ (∀ e, amount ≤ s.allowances (id, owner, spender) →
        inner_transfer MAX s id owner target amount = Except.error e →
        inner_transfer_from MAX s id owner spender target amount = Except.error e)
    ∧ (∀ st, amount ≤ s.allowances (id, owner, spender) →
        inner_transfer MAX s id owner target amount = Except.ok st →
        ∃ s1, inner_transfer_from MAX s id owner spender target amount = Except.ok s1
          ∧ s1.balances = st.balances
          ∧ s1.totalSupply = st.totalSupply
          ∧ s1.allowances (id, owner, spender) + amount = s.allowances (id, owner, spender)
          ∧ ∀ k, k ≠ (id, owner, spender) → s1.allowances k = s.allowances k)
    ∧ (∀ e, inner_transfer_from MAX s id owner spender target amount = Except.error e →
        (runCall MAX s (Call.transferFrom id owner spender target amount)).1 = s) := by
  refine ⟨fun hlt => ?_, fun e ha ht => ?_, fun st ha ht => ?_, fun e he => ?_⟩
  · rw [inner_transfer_from_eq, if_neg (Nat.not_le.mpr hlt)]
  · rw [inner_transfer_from_eq, if_pos ha, ht]
  · rw [inner_transfer_from_eq, if_pos ha, ht]
    have hfr := inner_transfer_ok MAX s id owner target amount st ht
    refine ⟨_, rfl, rfl, rfl, ?_, fun k hk => ?_⟩
    · show upd st.allowances (id, owner, spender) _ (id, owner, spender) + amount = _
      rw [upd_same]
      omega
    · show upd st.allowances (id, owner, spender) _ k = _
      rw [upd_ne _ _ _ _ hk, hfr.1]
      rfl
  · show (applyExcept s (inner_transfer_from MAX s id owner spender target amount)).1 = s
    rw [he]
    rfl

theorem c2_transfer_from_spec_witness :
    ∃ s1, inner_transfer_from 100 sIssuedApproved 0 0 1 2 4 = Except.ok s1
      ∧ s1.balances = (transferResult 100 sIssuedApproved 0 0 2 4).balances
      ∧ s1.totalSupply = (transferResult 100 sIssuedApproved 0 0 2 4).totalSupply
      ∧ s1.allowances (0, 0, 1) + 4 = sIssuedApproved.allowances (0, 0, 1)
      ∧ ∀ k, k ≠ (0, 0, 1) → s1.allowances k = sIssuedApproved.allowances k :=
  (c2_transfer_from_spec 100 sIssuedApproved 0 0 1 2 4).2.2.1
    (transferResult 100 sIssuedApproved 0 0 2 4) (by decide) rfl

/-- C4: every call of the pallet that returns an error leaves every storage
table identical to its pre-call state (all checks precede all writes). -/
theorem c4_error_no_mutation (MAX : Nat) (s : State) (c : Call) (e : Error)
    (h : (runCall MAX s c).2 = some e) : (runCall MAX s c).1 = s := by
  cases c with
  | issue o t i => simp [runCall] at h
  | approve id o sp a => exact applyExcept_error _ _ _ h
  | transfer id o t a => exact applyExcept_error _ _ _ h
  | transferFrom id o sp t a => exact applyExcept_error _ _ _ h
  | mint id o a => exact applyExcept_error _ _ _ h
  | burn id o a => exact applyExcept_error _ _ _ h

theorem c4_error_no_mutation_witness :
    (runCall 100 emptyState (Call.transfer 0 0 1 5)).1 = emptyState :=
  c4_error_no_mutation 100 emptyState (Call.transfer 0 0 1 5) Error.BalanceLow (by decide)

/-- C9: self-transfer is the identity on balances: with a positive amount at
most the (representable, hence at most MAX) balance, transferring from an
account to itself succeeds and leaves its balance unchanged, because the
debit is written first and the credit saturating-adds the amount back onto
the already-debited value, which cannot saturate. -/
theorem c9_self_transfer (MAX : Nat) (s : State) (id : Nat) (a : Nat)
    (amount : Nat) (h0 : 0 < amount) (h1 : amount ≤ s.balances (id, a))
    (h2 : s.balances (id, a) ≤ MAX) :
    ∃ s1, inner_transfer MAX s id a a amount = Except.ok s1
      ∧ s1.balances (id, a) = s.balances (id, a) := by
  refine ⟨transferResult MAX s id a a amount, ?_, ?_⟩
  · rw [inner_transfer_eq, if_neg (by omega), if_neg (Nat.not_lt.mpr h1)]
  · have hb : saturating_sub (s.balances (id, a)) amount + amount = s.balances (id, a) := by
      simp only [saturating_sub]
      omega
    simp [transferResult, upd_same, saturating_add, hb, Nat.min_eq_left h2]

theorem c9_self_transfer_witness :
    ∃ s1, inner_transfer 100 sIssued 0 0 0 4 = Except.ok s1
      ∧ s1.balances (0, 0) = sIssued.balances (0, 0) :=
  c9_self_transfer 100 sIssued 0 0 4 (by decide) (by decide) (by decide)

/-- C10: frame conditions: inner_transfer, inner_transfer_from and
inner_approve never modify TotalSupply, AssetInfos or NextAssetId; a
successful transfer modifies balances only at the owner and target keys of
its asset and never modifies allowances; approve modifies only the one
allowance entry; a successful transfer_from modifies balances only at those
two keys and allowances only at its (id, owner, spender) entry. -/
theorem c10_frame (MAX : Nat) (s : State) (id : Nat)
    (owner spender target : Nat) (amount : Nat) :
    (∀ s1, inner_transfer MAX s id owner target amount = Except.ok s1 →
      s1.totalSupply = s.totalSupply ∧ s1.assetInfos = s.assetInfos
        ∧ s1.nextAssetId = s.nextAssetId ∧ s1.allowances = s.allowances
        ∧ ∀ k, k ≠ (id, owner) → k ≠ (id, target) → s1.balances k = s.balances k)
    ∧ (∀ s1, inner_approve s id owner spender amount = Except.ok s1 →
      s1.totalSupply = s.totalSupply ∧ s1.assetInfos = s.assetInfos
        ∧ s1.nextAssetId = s.nextAssetId ∧ s1.balances = s.balances
        ∧ ∀ k, k ≠ (id, owner, spender) → s1.allowances k = s.allowances k)
    ∧ (∀ s1, inner_transfer_from MAX s id owner spender target amount = Except.ok s1 →
      s1.totalSupply = s.totalSupply ∧ s1.assetInfos = s.assetInfos
        ∧ s1.nextAssetId = s.nextAssetId
        ∧ (∀ k, k ≠ (id, owner) → k ≠ (id, target) → s1.balances k = s.balances k)
        ∧ ∀ k, k ≠ (id, owner, spender) → s1.allowances k = s.allowances k) := by
  refine ⟨fun s1 h => ?_, fun s1 h => ?_, fun s1 h => ?_⟩
  · obtain ⟨hs1, -, -⟩ := inner_transfer_ok MAX s id owner target amount s1 h
    subst hs1
    refine ⟨rfl, rfl, rfl, rfl, fun k hko hkt => ?_⟩
    show upd (upd s.balances (id, owner) _) (id, target) _ k = s.balances k
    rw [upd_ne _ _ _ _ hkt, upd_ne _ _ _ _ hko]
  · simp only [inner_approve, Except.ok.injEq] at h
    subst h
    exact ⟨rfl, rfl, rfl, rfl, fun k hk => upd_ne _ _ _ _ hk⟩
  · obtain ⟨ha, st, hst, hs1⟩ := inner_transfer_from_ok MAX s id owner spender target amount s1 h
    obtain ⟨hres, -, -⟩ := inner_transfer_ok MAX s id owner target amount st hst
    subst hs1
    subst hres
    refine ⟨rfl, rfl, rfl, fun k hko hkt => ?_, fun k hk => ?_⟩
    · show upd (upd s.balances (id, owner) _) (id, target) _ k = s.balances k
      rw [upd_ne _ _ _ _ hkt, upd_ne _ _ _ _ hko]
    · show upd (transferResult MAX s id owner target amount).allowances _ _ k = s.allowances k
      rw [upd_ne _ _ _ _ hk]
      rfl

theorem c10_frame_witness :
    (transferResult 100 sIssued 0 0 1 4).allowances = sIssued.allowances :=
  (((c10_frame 100 sIssued 0 0 1 1 4).1 (transferResult 100 sIssued 0 0 1 4) rfl).2.2.2).1

/-- An asset with no recorded info has an all-zero balance column: the only
operations that write a balance either just issued the info (issue), check
the info first (mint, burn), or need a positive owner balance (transfer). -/
def NoInfoZero (s : State) : Prop :=
  ∀ id, s.assetInfos id = none → ∀ a, s.balances (id, a) = 0

theorem noInfoZero_runCall (MAX : Nat) (s : State) (c : Call) (h : NoInfoZero s) :
    NoInfoZero (runCall MAX s c).1 := by
  cases c with
  | issue o t i =>
    intro id hid a
    have hne : id ≠ s.nextAssetId := by
      intro he
      rw [show (runCall MAX s (Call.issue o t i)).1.assetInfos
          = upd s.assetInfos s.nextAssetId (some i) from rfl, he, upd_same] at hid
      exact Option.noConfusion hid
    rw [show (runCall MAX s (Call.issue o t i)).1.assetInfos
        = upd s.assetInfos s.nextAssetId (some i) from rfl, upd_ne _ _ _ _ hne] at hid
    show upd s.balances (s.nextAssetId, o) t (id, a) = 0
    rw [upd_ne _ _ _ _ (by simp [hne]), h id hid a]
  | approve id0 o sp am => exact fun id hid a => h id hid a
  | transfer id0 o t am =>
    rcases ht : inner_transfer MAX s id0 o t am with e | s1
    · simpa [runCall, ht, applyExcept] using h
    · obtain ⟨hs1, h0, h1⟩ := inner_transfer_ok MAX s id0 o t am s1 ht
      intro id hid a
      simp only [runCall, ht, applyExcept] at hid ⊢
      subst hs1
      have hne : id ≠ id0 := by
        intro he
        subst he
        rw [h id hid o] at h1
        omega
      rw [show (transferResult MAX s id0 o t am).balances (id, a)
          = s.balances (id, a) from by
            rw [show (transferResult MAX s id0 o t am).balances
              = upd (upd s.balances (id0, o) (saturating_sub (s.balances (id0, o)) am)) (id0, t)
                (saturating_add MAX ((upd s.balances (id0, o) (saturating_sub (s.balances (id0, o)) am)) (id0, t)) am) from rfl]
            rw [upd_ne _ _ _ _ (by simp [hne]), upd_ne _ _ _ _ (by simp [hne])]]
      exact h id hid a
  | transferFrom id0 o sp t am =>
    rcases ht : inner_transfer_from MAX s id0 o sp t am with e | s1
    · simpa [runCall, ht, applyExcept] using h
    · obtain ⟨ha, st, hst, hs1⟩ := inner_transfer_from_ok MAX s id0 o sp t am s1 ht
      obtain ⟨hres, h0, h1⟩ := inner_transfer_ok MAX s id0 o t am st hst
      intro id hid a
      simp only [runCall, ht, applyExcept] at hid ⊢
      subst hs1
      subst hres
      have hid2 : s.assetInfos id = none := hid
      have hne : id ≠ id0 := by
        intro he
        subst he
        rw [h id hid2 o] at h1
        omega
      show upd (upd s.balances (id0, o) (saturating_sub (s.balances (id0, o)) am)) (id0, t)
        (saturating_add MAX ((upd s.balances (id0, o) (saturating_sub (s.balances (id0, o)) am)) (id0, t)) am) (id, a) = 0
      rw [upd_ne _ _ _ _ (by simp [hne]), upd_ne _ _ _ _ (by simp [hne])]
      exact h id hid2 a
  | mint id0 o am =>
    rcases ht : inner_mint MAX s id0 o am with e | s1
    · simpa [runCall, ht, applyExcept] using h
    · obtain ⟨hs1, hsome⟩ := inner_mint_ok MAX s id0 o am s1 ht
      intro id hid a
      simp only [runCall, ht, applyExcept] at hid ⊢
      subst hs1
      have hne : id ≠ id0 := by
        intro he
        subst he
        rw [show (mintResult MAX s id o am).assetInfos = s.assetInfos from rfl] at hid
        rw [hid] at hsome
        exact Bool.noConfusion hsome
      rw [show (mintResult MAX s id0 o am).balances (id, a)
          = upd s.balances (id0, o) (saturating_add MAX (s.balances (id0, o)) am) (id, a) from rfl]
      rw [upd_ne _ _ _ _ (by simp [hne])]
      exact h id hid a
  | burn id0 o am =>
    rcases ht : inner_burn s id0 o am with e | s1
    · simpa [runCall, ht, applyExcept] using h
    · obtain ⟨hs1, hsome, hle⟩ := inner_burn_ok s id0 o am s1 ht
      intro id hid a
      simp only [runCall, ht, applyExcept] at hid ⊢
      subst hs1
      have hne : id ≠ id0 := by
        intro he
        subst he
        rw [show (burnResult s id o am).assetInfos = s.assetInfos from rfl] at hid
        rw [hid] at hsome
        exact Bool.noConfusion hsome
      rw [show (burnResult s id0 o am).balances (id, a)
          = upd s.balances (id0, o) (saturating_sub (s.balances (id0, o)) am) (id, a) from rfl]
      rw [upd_ne _ _ _ _ (by simp [hne])]
      exact h id hid a

theorem noInfoZero_runTrace (MAX : Nat) (tr : List Call) :
    NoInfoZero (runTrace MAX emptyState tr) := by
  suffices hgen : ∀ s, NoInfoZero s → NoInfoZero (runTrace MAX s tr) from
    hgen emptyState (fun id _ a => rfl)
  induction tr with
  | nil => exact fun s hs => hs
  | cons c cs ih => exact fun s hs => ih _ (noInfoZero_runCall MAX s c hs)

/-- C8 (amended): inner_transfer never returns AssetNotExists, for any state
and arguments, so unknown asset ids are not rejected for nonexistence; but
transferring a never-issued asset from a reachable state never succeeds
either: every balance of such an asset is zero, so the call fails with
AmountZero (zero amount) or BalanceLow (positive amount). -/
theorem c8_unknown_asset (MAX : Nat) (tr : List Call)
    (id owner target amount : Nat) :
    (∀ s : State, inner_transfer MAX s id owner target amount ≠ Except.error Error.AssetNotExists)
    ∧ ((runTrace MAX emptyState tr).assetInfos id = none →
        (amount = 0 ∧ inner_transfer MAX (runTrace MAX emptyState tr) id owner target amount
            = Except.error Error.AmountZero)
        ∨ (amount ≠ 0 ∧ inner_transfer MAX (runTrace MAX emptyState tr) id owner target amount
            = Except.error Error.BalanceLow)) := by
  constructor
  · intro s hcontra
    rw [inner_transfer_eq] at hcontra
    by_cases h0 : amount = 0
    · rw [if_pos h0] at hcontra
      exact Error.noConfusion (Except.error.inj hcontra)
    · by_cases h1 : s.balances (id, owner) < amount
      · rw [if_neg h0, if_pos h1] at hcontra
        exact Error.noConfusion (Except.error.inj hcontra)
      · rw [if_neg h0, if_neg h1] at hcontra
        exact Except.noConfusion hcontra
  · intro hinfo
    have hz : (runTrace MAX emptyState tr).balances (id, owner) = 0 :=
      noInfoZero_runTrace MAX tr id hinfo owner
    by_cases h0 : amount = 0
    · exact Or.inl ⟨h0, by rw [inner_transfer_eq, if_pos h0]⟩
    · refine Or.inr ⟨h0, ?_⟩
      rw [inner_transfer_eq, if_neg h0, if_pos (by omega)]

theorem c8_unknown_asset_witness :
    (5 = 0 ∧ inner_transfer 100 (runTrace 100 emptyState []) 99 0 1 5
        = Except.error Error.AmountZero)
    ∨ (5 ≠ 0 ∧ inner_transfer 100 (runTrace 100 emptyState []) 99 0 1 5
        = Except.error Error.BalanceLow) :=
  (c8_unknown_asset 100 [] 99 0 1 5).2 rfl

/-- C8 counterexample: on empty storage (asset 99 was never issued, its
AssetInfos entry is absent) a transfer of asset 99 does not succeed: it
fails with BalanceLow, so the claim that such a transfer succeeds is false. -/
theorem c8_counterexample :
    emptyState.assetInfos 99 = none
      ∧ inner_transfer 4294967295 emptyState 99 0 1 5 = Except.error Error.BalanceLow :=
  ⟨rfl, rfl⟩

/-- Conservation at one asset: the total supply equals the sum of the
balances over a finite support outside which every balance of the asset is
zero (the spec's sum over accounts with nonzero balance). -/
def conservedAt (s : State) (id : Nat) : Prop :=
  ∃ S : Finset Nat, (∀ a, a ∉ S → s.balances (id, a) = 0)
    ∧ s.totalSupply id = S.sum (fun a => s.balances (id, a))

/-- Calls whose saturating additions cannot clamp: the issued supply is
representable and the minted amount does not saturate the total supply.
All other calls are unrestricted. -/
def GoodCall (MAX : Nat) (s : State) : Call → Prop
  | Call.issue _ total _ => total ≤ MAX
  | Call.mint id _ amount => s.totalSupply id + amount ≤ MAX
  | _ => True

/-- States reachable from empty storage by calls whose saturating additions
never clamp. -/
inductive ReachableNS (MAX : Nat) : State → Prop where
  | init : ReachableNS MAX emptyState
  | step (s : State) (c : Call) : ReachableNS MAX s → GoodCall MAX s c →
      ReachableNS MAX (runCall MAX s c).1

/-- The inductive invariant behind conservation: every asset is conserved,
every total supply is representable, and every not-yet-allocated asset id
has no info, no supply and no balances. -/
def Inv (MAX : Nat) (s : State) : Prop :=
  (∀ id, conservedAt s id)
  ∧ (∀ id, s.totalSupply id ≤ MAX)
  ∧ (∀ id, s.nextAssetId ≤ id → s.assetInfos id = none ∧ s.totalSupply id = 0
      ∧ ∀ a, s.balances (id, a) = 0)

theorem sum_upd (S : Finset Nat) (f : Nat → Nat) (a v : Nat) (h : a ∈ S) :
    S.sum (upd f a v) + f a = S.sum f + v := by
  have h1 : upd f a v a + (S.erase a).sum (upd f a v) = S.sum (upd f a v) :=
    Finset.add_sum_erase S (upd f a v) h
  have h2 : f a + (S.erase a).sum f = S.sum f := Finset.add_sum_erase S f h
  have h3 : (S.erase a).sum (upd f a v) = (S.erase a).sum f :=
    Finset.sum_congr rfl (fun x hx => upd_ne _ _ _ _ (Finset.ne_of_mem_erase hx))
  rw [upd_same] at h1
  omega

theorem upd_pair_fst (f : Nat × Nat → Nat) (id k v a : Nat) :
    upd f (id, k) v (id, a) = upd (fun x => f (id, x)) k v a := by
  by_cases h : a = k
  · subst h
    rw [upd_same, upd_same]
  · rw [upd_ne _ _ _ _ (by simp [h] : ((id, a) : Nat × Nat) ≠ (id, k)), upd_ne _ _ _ _ h]

theorem upd_pair_ne (f : Nat × Nat → Nat) (id k v j a : Nat) (h : j ≠ id) :
    upd f (id, k) v (j, a) = f (j, a) :=
  upd_ne _ _ _ _ (by simp [h])

/-- Summing a function that is a point update of g (specified pointwise)
relates to the sum of g. -/
theorem sum_pointwise_upd (S' : Finset Nat) (g g2 : Nat → Nat) (k v : Nat)
    (hk : k ∈ S') (h2k : g2 k = v) (h2 : ∀ a, a ≠ k → g2 a = g a) :
    S'.sum g2 + g k = S'.sum g + v := by
  have hfun : ∀ a, g2 a = upd g k v a := by
    intro a
    by_cases ha : a = k
    · subst ha
      rw [upd_same]
      exact h2k
    · rw [upd_ne _ _ _ _ ha]
      exact h2 a ha
  calc S'.sum g2 + g k = S'.sum (upd g k v) + g k := by
        rw [Finset.sum_congr rfl (fun a _ => hfun a)]
    _ = S'.sum g + v := sum_upd S' g k v hk

theorem inv_approve (MAX : Nat) (s : State) (id owner spender amount : Nat)
    (h : Inv MAX s) :
    Inv MAX { s with allowances := upd s.allowances (id, owner, spender) amount } :=
  h

theorem inv_issue (MAX : Nat) (s : State) (owner total : Nat) (info : AssetInfo)
    (h : Inv MAX s) (htot : total ≤ MAX) :
    Inv MAX (inner_issue s owner total info).1 := by
  obtain ⟨hc, hm, hf⟩ := h
  refine ⟨?_, ?_, ?_⟩
  · intro j
    by_cases hj : j = s.nextAssetId
    · subst hj
      refine ⟨{owner}, fun a ha => ?_, ?_⟩
      · have hao : a ≠ owner := by simpa using ha
        show upd s.balances (s.nextAssetId, owner) total (s.nextAssetId, a) = 0
        rw [upd_ne _ _ _ _ (by simp [hao] : ((s.nextAssetId, a) : Nat × Nat) ≠ (s.nextAssetId, owner))]
        exact (hf s.nextAssetId (Nat.le_refl _)).2.2 a
      · show upd s.totalSupply s.nextAssetId total s.nextAssetId
          = ({owner} : Finset Nat).sum (fun a => (inner_issue s owner total info).1.balances (s.nextAssetId, a))
        rw [upd_same, Finset.sum_singleton]
        show total = upd s.balances (s.nextAssetId, owner) total (s.nextAssetId, owner)
        rw [upd_same]
    · obtain ⟨S, hz, hsum⟩ := hc j
      refine ⟨S, fun a ha => ?_, ?_⟩
      · show upd s.balances (s.nextAssetId, owner) total (j, a) = 0
        rw [upd_pair_ne _ _ _ _ _ _ hj]
        exact hz a ha
      · show upd s.totalSupply s.nextAssetId total j = _
        rw [upd_ne _ _ _ _ hj, hsum]
        refine Finset.sum_congr rfl (fun a ha => ?_)
        show s.balances (j, a) = upd s.balances (s.nextAssetId, owner) total (j, a)
        rw [upd_pair_ne _ _ _ _ _ _ hj]
  · intro j
    by_cases hj : j = s.nextAssetId
    · subst hj
      show upd s.totalSupply s.nextAssetId total s.nextAssetId ≤ MAX
      rw [upd_same]
      exact htot
    · show upd s.totalSupply s.nextAssetId total j ≤ MAX
      rw [upd_ne _ _ _ _ hj]
      exact hm j
  · intro j hjge
    have hjge2 : s.nextAssetId + 1 ≤ j := hjge
    have hj : j ≠ s.nextAssetId := by omega
    obtain ⟨hfi, hfs, hfb⟩ := hf j (by omega)
    refine ⟨?_, ?_, fun a => ?_⟩
    · show upd s.assetInfos s.nextAssetId (some info) j = none
      rw [upd_ne _ _ _ _ hj]
      exact hfi
    · show upd s.totalSupply s.nextAssetId total j = 0
      rw [upd_ne _ _ _ _ hj]
      exact hfs
    · show upd s.balances (s.nextAssetId, owner) total (j, a) = 0
      rw [upd_pair_ne _ _ _ _ _ _ hj]
      exact hfb a

theorem inv_mint (MAX : Nat) (s : State) (id owner amount : Nat)
    (h : Inv MAX s) (hgood : s.totalSupply id + amount ≤ MAX)
    (hsome : (s.assetInfos id).isSome) :
    Inv MAX (mintResult MAX s id owner amount) := by
  obtain ⟨hc, hm, hf⟩ := h
  have hid_lt : id < s.nextAssetId := by
    by_contra hge
    rw [(hf id (Nat.le_of_not_lt hge)).1] at hsome
    exact Bool.noConfusion hsome
  refine ⟨?_, ?_, ?_⟩
  · intro j
    by_cases hj : j = id
    · subst hj
      obtain ⟨S, hz, hsum⟩ := hc j
      have hOS : owner ∈ insert owner S := Finset.mem_insert_self _ _
      have hSS : S ⊆ insert owner S := fun x hx => Finset.mem_insert_of_mem hx
      have hsum2 : s.totalSupply j = (insert owner S).sum (fun a => s.balances (j, a)) := by
        rw [hsum]
        exact Finset.sum_subset hSS (fun x hx hnx => hz x hnx)
      have hgo : s.balances (j, owner) ≤ s.totalSupply j := by
        rw [hsum2]
        exact Finset.single_le_sum (f := fun a => s.balances (j, a)) (fun i _ => Nat.zero_le _) hOS
      have hGo : (mintResult MAX s j owner amount).balances (j, owner)
          = saturating_add MAX (s.balances (j, owner)) amount := by
        show upd s.balances (j, owner) (saturating_add MAX (s.balances (j, owner)) amount) (j, owner) = _
        rw [upd_same]
      have hGa : ∀ a, a ≠ owner →
          (mintResult MAX s j owner amount).balances (j, a) = s.balances (j, a) := by
        intro a hao
        show upd s.balances (j, owner) (saturating_add MAX (s.balances (j, owner)) amount) (j, a) = _
        rw [upd_ne _ _ _ _ (by simp [hao] : ((j, a) : Nat × Nat) ≠ (j, owner))]
      have hstep := sum_pointwise_upd (insert owner S) (fun x => s.balances (j, x))
        (fun a => (mintResult MAX s j owner amount).balances (j, a)) owner
        (saturating_add MAX (s.balances (j, owner)) amount) hOS hGo hGa
      refine ⟨insert owner S, fun a ha => ?_, ?_⟩
      · have hao : a ≠ owner := fun he => ha (he ▸ hOS)
        rw [hGa a hao]
        exact hz a (fun hmem => ha (hSS hmem))
      · show upd s.totalSupply j (saturating_add MAX (s.totalSupply j) amount) j = _
        rw [upd_same]
        have hsatb : s.balances (j, owner) + amount ≤ MAX := by omega
        simp only [saturating_add] at hstep ⊢
        rw [Nat.min_eq_left hsatb] at hstep
        rw [Nat.min_eq_left hgood]
        omega
    · obtain ⟨S, hz, hsum⟩ := hc j
      refine ⟨S, fun a ha => ?_, ?_⟩
      · show upd s.balances (id, owner) (saturating_add MAX (s.balances (id, owner)) amount) (j, a) = 0
        rw [upd_pair_ne _ _ _ _ _ _ hj]
        exact hz a ha
      · show upd s.totalSupply id (saturating_add MAX (s.totalSupply id) amount) j = _
        rw [upd_ne _ _ _ _ hj, hsum]
        refine Finset.sum_congr rfl (fun a ha => ?_)
        show s.balances (j, a) = upd s.balances (id, owner) (saturating_add MAX (s.balances (id, owner)) amount) (j, a)
        rw [upd_pair_ne _ _ _ _ _ _ hj]
  · intro j
    by_cases hj : j = id
    · subst hj
      show upd s.totalSupply j (saturating_add MAX (s.totalSupply j) amount) j ≤ MAX
      rw [upd_same]
      exact Nat.min_le_right _ _
    · show upd s.totalSupply id (saturating_add MAX (s.totalSupply id) amount) j ≤ MAX
      rw [upd_ne _ _ _ _ hj]
      exact hm j
  · intro j hjge
    have hjge2 : s.nextAssetId ≤ j := hjge
    obtain ⟨hfi, hfs, hfb⟩ := hf j hjge2
    have hj : j ≠ id := by omega
    refine ⟨hfi, ?_, fun a => ?_⟩
    · show upd s.totalSupply id (saturating_add MAX (s.totalSupply id) amount) j = 0
      rw [upd_ne _ _ _ _ hj]
      exact hfs
    · show upd s.balances (id, owner) (saturating_add MAX (s.balances (id, owner)) amount) (j, a) = 0
      rw [upd_pair_ne _ _ _ _ _ _ hj]
      exact hfb a

theorem inv_burn (MAX : Nat) (s : State) (id owner amount : Nat)
    (h : Inv MAX s) (hle : amount ≤ s.balances (id, owner))
    (hsome : (s.assetInfos id).isSome) :
    Inv MAX (burnResult s id owner amount) := by
  obtain ⟨hc, hm, hf⟩ := h
  have hid_lt : id < s.nextAssetId := by
    by_contra hge
    rw [(hf id (Nat.le_of_not_lt hge)).1] at hsome
    exact Bool.noConfusion hsome
  refine ⟨?_, ?_, ?_⟩
  · intro j
    by_cases hj : j = id
    · subst hj
      obtain ⟨S, hz, hsum⟩ := hc j
      have hOS : owner ∈ insert owner S := Finset.mem_insert_self _ _
      have hSS : S ⊆ insert owner S := fun x hx => Finset.mem_insert_of_mem hx
      have hsum2 : s.totalSupply j = (insert owner S).sum (fun a => s.balances (j, a)) := by
        rw [hsum]
        exact Finset.sum_subset hSS (fun x hx hnx => hz x hnx)
      have hgo : s.balances (j, owner) ≤ s.totalSupply j := by
        rw [hsum2]
        exact Finset.single_le_sum (f := fun a => s.balances (j, a)) (fun i _ => Nat.zero_le _) hOS
      have hGo : (burnResult s j owner amount).balances (j, owner)
          = s.balances (j, owner) - amount := by
        show upd s.balances (j, owner) (saturating_sub (s.balances (j, owner)) amount) (j, owner) = _
        rw [upd_same]
        rfl
      have hGa : ∀ a, a ≠ owner →
          (burnResult s j owner amount).balances (j, a) = s.balances (j, a) := by
        intro a hao
        show upd s.balances (j, owner) (saturating_sub (s.balances (j, owner)) amount) (j, a) = _
        rw [upd_ne _ _ _ _ (by simp [hao] : ((j, a) : Nat × Nat) ≠ (j, owner))]
      have hstep := sum_pointwise_upd (insert owner S) (fun x => s.balances (j, x))
        (fun a => (burnResult s j owner amount).balances (j, a)) owner
        (s.balances (j, owner) - amount) hOS hGo hGa
      refine ⟨insert owner S, fun a ha => ?_, ?_⟩
      · have hao : a ≠ owner := fun he => ha (he ▸ hOS)
        rw [hGa a hao]
        exact hz a (fun hmem => ha (hSS hmem))
      · show upd s.totalSupply j (saturating_sub (s.totalSupply j) amount) j = _
        rw [upd_same]
        simp only [saturating_sub] at hstep ⊢
        omega
    · obtain ⟨S, hz, hsum⟩ := hc j
      refine ⟨S, fun a ha => ?_, ?_⟩
      · show upd s.balances (id, owner) (saturating_sub (s.balances (id, owner)) amount) (j, a) = 0
        rw [upd_pair_ne _ _ _ _ _ _ hj]
        exact hz a ha
      · show upd s.totalSupply id (saturating_sub (s.totalSupply id) amount) j = _
        rw [upd_ne _ _ _ _ hj, hsum]
        refine Finset.sum_congr rfl (fun a ha => ?_)
        show s.balances (j, a) = upd s.balances (id, owner) (saturating_sub (s.balances (id, owner)) amount) (j, a)
        rw [upd_pair_ne _ _ _ _ _ _ hj]
  · intro j
    by_cases hj : j = id
    · subst hj
      show upd s.totalSupply j (saturating_sub (s.totalSupply j) amount) j ≤ MAX
      rw [upd_same]
      have := hm j
      simp only [saturating_sub]
      omega
    · show upd s.totalSupply id (saturating_sub (s.totalSupply id) amount) j ≤ MAX
      rw [upd_ne _ _ _ _ hj]
      exact hm j
  · intro j hjge
    have hjge2 : s.nextAssetId ≤ j := hjge
    obtain ⟨hfi, hfs, hfb⟩ := hf j hjge2
    have hj : j ≠ id := by omega
    refine ⟨hfi, ?_, fun a => ?_⟩
    · show upd s.totalSupply id (saturating_sub (s.totalSupply id) amount) j = 0
      rw [upd_ne _ _ _ _ hj]
      exact hfs
    · show upd s.balances (id, owner) (saturating_sub (s.balances (id, owner)) amount) (j, a) = 0
      rw [upd_pair_ne _ _ _ _ _ _ hj]
      exact hfb a

theorem inv_transfer (MAX : Nat) (s : State) (id owner target amount : Nat)
    (h : Inv MAX s) (h0 : amount ≠ 0) (h1 : amount ≤ s.balances (id, owner)) :
    Inv MAX (transferResult MAX s id owner target amount) := by
  obtain ⟨hc, hm, hf⟩ := h
  have hid_lt : id < s.nextAssetId := by
    by_contra hge
    have := (hf id (Nat.le_of_not_lt hge)).2.2 owner
    omega
  refine ⟨?_, hm, ?_⟩
  · intro j
    by_cases hj : j = id
    · subst hj
      obtain ⟨S, hz, hsum⟩ := hc j
      have hOS : owner ∈ insert owner (insert target S) := Finset.mem_insert_self _ _
      have hTS : target ∈ insert owner (insert target S) :=
        Finset.mem_insert_of_mem (Finset.mem_insert_self _ _)
      have hSS : S ⊆ insert owner (insert target S) :=
        fun x hx => Finset.mem_insert_of_mem (Finset.mem_insert_of_mem hx)
      have hsum2 : s.totalSupply j
          = (insert owner (insert target S)).sum (fun a => s.balances (j, a)) := by
        rw [hsum]
        exact Finset.sum_subset hSS (fun x hx hnx => hz x hnx)
      have hgo : s.balances (j, owner) ≤ s.totalSupply j := by
        rw [hsum2]
        exact Finset.single_le_sum (f := fun a => s.balances (j, a)) (fun i _ => Nat.zero_le _) hOS
      have hGt : (transferResult MAX s j owner target amount).balances (j, target)
          = saturating_add MAX (upd (fun x => s.balances (j, x)) owner
              (saturating_sub (s.balances (j, owner)) amount) target) amount := by
        show upd (upd s.balances (j, owner) (saturating_sub (s.balances (j, owner)) amount)) (j, target)
          (saturating_add MAX (upd s.balances (j, owner) (saturating_sub (s.balances (j, owner)) amount) (j, target)) amount) (j, target) = _
        rw [upd_same, upd_pair_fst]
      have hGa : ∀ a, a ≠ target →
          (transferResult MAX s j owner target amount).balances (j, a)
            = upd (fun x => s.balances (j, x)) owner
                (saturating_sub (s.balances (j, owner)) amount) a := by
        intro a hat
        show upd (upd s.balances (j, owner) (saturating_sub (s.balances (j, owner)) amount)) (j, target)
          (saturating_add MAX (upd s.balances (j, owner) (saturating_sub (s.balances (j, owner)) amount) (j, target)) amount) (j, a) = _
        rw [upd_ne _ _ _ _ (by simp [hat] : ((j, a) : Nat × Nat) ≠ (j, target)), upd_pair_fst]
      have hsat : upd (fun x => s.balances (j, x)) owner
          (saturating_sub (s.balances (j, owner)) amount) target + amount ≤ MAX := by
        have hmj := hm j
        by_cases hot : owner = target
        · subst hot
          rw [upd_same]
          simp only [saturating_sub]
          omega
        · rw [upd_ne _ _ _ _ (Ne.symm hot)]
          have hsub2 : ({owner, target} : Finset Nat) ⊆ insert owner (insert target S) := by
            intro x hx
            rcases Finset.mem_insert.mp hx with hx1 | hx1
            · exact hx1 ▸ hOS
            · exact (Finset.mem_singleton.mp hx1) ▸ hTS
          have hle2 : ({owner, target} : Finset Nat).sum (fun a => s.balances (j, a))
              ≤ (insert owner (insert target S)).sum (fun a => s.balances (j, a)) :=
            Finset.sum_le_sum_of_subset hsub2
          rw [Finset.sum_pair hot] at hle2
          show s.balances (j, target) + amount ≤ MAX
          omega
      have hstep2 := sum_pointwise_upd (insert owner (insert target S))
        (upd (fun x => s.balances (j, x)) owner (saturating_sub (s.balances (j, owner)) amount))
        (fun a => (transferResult MAX s j owner target amount).balances (j, a)) target
        (saturating_add MAX (upd (fun x => s.balances (j, x)) owner
          (saturating_sub (s.balances (j, owner)) amount) target) amount) hTS hGt hGa
      have hstep1 := sum_upd (insert owner (insert target S)) (fun x => s.balances (j, x))
        owner (saturating_sub (s.balances (j, owner)) amount) hOS
      refine ⟨insert owner (insert target S), fun a ha => ?_, ?_⟩
      · have hao : a ≠ owner := fun he => ha (he ▸ hOS)
        have hat : a ≠ target := fun he => ha (he ▸ hTS)
        rw [hGa a hat, upd_ne _ _ _ _ hao]
        exact hz a (fun hmem => ha (hSS hmem))
      · show s.totalSupply j
          = (insert owner (insert target S)).sum
              (fun a => (transferResult MAX s j owner target amount).balances (j, a))
        simp only [saturating_add] at hstep2
        rw [Nat.min_eq_left hsat] at hstep2
        simp only [saturating_sub] at hstep1 hstep2
        omega
    · obtain ⟨S, hz, hsum⟩ := hc j
      refine ⟨S, fun a ha => ?_, ?_⟩
      · show upd (upd s.balances (id, owner) (saturating_sub (s.balances (id, owner)) amount)) (id, target)
          (saturating_add MAX (upd s.balances (id, owner) (saturating_sub (s.balances (id, owner)) amount) (id, target)) amount) (j, a) = 0
        rw [upd_pair_ne _ _ _ _ _ _ hj, upd_pair_ne _ _ _ _ _ _ hj]
        exact hz a ha
      · show s.totalSupply j = _
        rw [hsum]
        refine Finset.sum_congr rfl (fun a ha => ?_)
        show s.balances (j, a)
          = upd (upd s.balances (id, owner) (saturating_sub (s.balances (id, owner)) amount)) (id, target)
            (saturating_add MAX (upd s.balances (id, owner) (saturating_sub (s.balances (id, owner)) amount) (id, target)) amount) (j, a)
        rw [upd_pair_ne _ _ _ _ _ _ hj, upd_pair_ne _ _ _ _ _ _ hj]
  · intro j hjge
    have hjge2 : s.nextAssetId ≤ j := hjge
    obtain ⟨hfi, hfs, hfb⟩ := hf j hjge2
    have hj : j ≠ id := by omega
    refine ⟨hfi, hfs, fun a => ?_⟩
    show upd (upd s.balances (id, owner) (saturating_sub (s.balances (id, owner)) amount)) (id, target)
      (saturating_add MAX (upd s.balances (id, owner) (saturating_sub (s.balances (id, owner)) amount) (id, target)) amount) (j, a) = 0
    rw [upd_pair_ne _ _ _ _ _ _ hj, upd_pair_ne _ _ _ _ _ _ hj]
    exact hfb a

theorem inv_runCall (MAX : Nat) (s : State) (c : Call) (h : Inv MAX s)
    (hg : GoodCall MAX s c) : Inv MAX (runCall MAX s c).1 := by
  cases c with
  | issue o t i =>
    exact inv_issue MAX s o t i h hg
  | approve id o sp a =>
    exact inv_approve MAX s id o sp a h
  | transfer id o t a =>
    rcases ht : inner_transfer MAX s id o t a with e | s1
    · simpa [runCall, ht, applyExcept] using h
    · obtain ⟨hs1, h0, h1⟩ := inner_transfer_ok MAX s id o t a s1 ht
      have hrc : (runCall MAX s (Call.transfer id o t a)).1 = s1 := by
        simp [runCall, ht, applyExcept]
      rw [hrc, hs1]
      exact inv_transfer MAX s id o t a h h0 h1
  | transferFrom id o sp t a =>
    rcases ht : inner_transfer_from MAX s id o sp t a with e | s1
    · simpa [runCall, ht, applyExcept] using h
    · obtain ⟨ha, st, hst, hs1⟩ := inner_transfer_from_ok MAX s id o sp t a s1 ht
      obtain ⟨hres, h0, h1⟩ := inner_transfer_ok MAX s id o t a st hst
      have hrc : (runCall MAX s (Call.transferFrom id o sp t a)).1 = s1 := by
        simp [runCall, ht, applyExcept]
      rw [hrc, hs1, hres]
      exact inv_transfer MAX s id o t a h h0 h1
  | mint id o a =>
    rcases ht : inner_mint MAX s id o a with e | s1
    · simpa [runCall, ht, applyExcept] using h
    · obtain ⟨hs1, hsome⟩ := inner_mint_ok MAX s id o a s1 ht
      have hrc : (runCall MAX s (Call.mint id o a)).1 = s1 := by
        simp [runCall, ht, applyExcept]
      rw [hrc, hs1]
      exact inv_mint MAX s id o a h hg hsome
  | burn id o a =>
    rcases ht : inner_burn s id o a with e | s1
    · simpa [runCall, ht, applyExcept] using h
    · obtain ⟨hs1, hsome, hle⟩ := inner_burn_ok s id o a s1 ht
      have hrc : (runCall MAX s (Call.burn id o a)).1 = s1 := by
        simp [runCall, ht, applyExcept]
      rw [hrc, hs1]
      exact inv_burn MAX s id o a h hle hsome

theorem inv_reachable (MAX : Nat) (s : State) (h : ReachableNS MAX s) : Inv MAX s := by
  induction h with
  | init =>
    exact ⟨fun id => ⟨∅, fun a _ => rfl, by simp [emptyState]⟩, fun id => Nat.zero_le _,
      fun id _ => ⟨rfl, rfl, fun a => rfl⟩⟩
  | step s c hs hg ih => exact inv_runCall MAX s c ih hg

/-- C1 (amended): for every asset id, after every finite sequence of issue,
mint, burn, transfer, transfer-from and approve calls (successful or
failed) starting from empty storage, in which every issued initial supply
is representable (at most the balance-type maximum MAX) and no mint
saturates the total supply, TotalSupply of the asset equals the sum of its
balances over a finite support outside which all its balances are zero.
The restriction on mint is forced: a mint that clamps the supply at MAX
while the account balance addition does not clamp breaks the equality. -/
theorem c1_conservation (MAX : Nat) (s : State) (h : ReachableNS MAX s) (id : Nat) :
    conservedAt s id :=
  (inv_reachable MAX s h).1 id

theorem c1_conservation_witness :
    conservedAt (runCall 100 emptyState (Call.issue 0 10 infoA)).1 0 :=
  c1_conservation 100 (runCall 100 emptyState (Call.issue 0 10 infoA)).1
    (ReachableNS.step emptyState (Call.issue 0 10 infoA) ReachableNS.init
      (by show (10 : Nat) ≤ 100; omega)) 0

/-- A trace breaking unrestricted conservation on a 32-bit balance type:
issue the full range 4294967295 to account 0, transfer one unit to
account 1, then mint one more unit to account 0.  The supply saturates at
4294967295 while the balance addition (4294967294 + 1) does not clamp. -/
def badTrace : List Call :=
  [Call.issue 0 4294967295 infoA, Call.transfer 0 0 1 1, Call.mint 0 0 1]

/-- C1 counterexample: after the saturating mint of badTrace the claimed
equality is false: account 0 holds 4294967295 and account 1 holds 1, but
TotalSupply of asset 0 is clamped at 4294967295, one below the balance
sum, so no support set can witness the conservation equality. -/
theorem c1_counterexample :
    ¬ conservedAt (runTrace 4294967295 emptyState badTrace) 0 := by
  rintro ⟨S, hz, hsum⟩
  have hb0 : (runTrace 4294967295 emptyState badTrace).balances (0, 0) = 4294967295 := by
    decide
  have hb1 : (runTrace 4294967295 emptyState badTrace).balances (0, 1) = 1 := by
    decide
  have hts : (runTrace 4294967295 emptyState badTrace).totalSupply 0 = 4294967295 := by
    decide
  have h0S : 0 ∈ S := by
    by_contra hns
    have := hz 0 hns
    rw [hb0] at this
    omega
  have h1S : 1 ∈ S := by
    by_contra hns
    have := hz 1 hns
    rw [hb1] at this
    omega
  have hsub : ({0, 1} : Finset Nat) ⊆ S := by
    intro x hx
    rcases Finset.mem_insert.mp hx with hx1 | hx1
    · exact hx1 ▸ h0S
    · exact (Finset.mem_singleton.mp hx1) ▸ h1S
  have hle : ({0, 1} : Finset Nat).sum
      (fun a => (runTrace 4294967295 emptyState badTrace).balances (0, a))
      ≤ S.sum (fun a => (runTrace 4294967295 emptyState badTrace).balances (0, a)) :=
    Finset.sum_le_sum_of_subset hsub
  rw [Finset.sum_pair (by omega : (0 : Nat) ≠ 1), hb0, hb1] at hle
  rw [hts] at hsum
  omega

end Erc20
